import Mathlib

/-!
Verification of the technical-indicator computation engine and the
historical-data request validator of the groww-mcp-server repository
(`src/index.ts`), against its natural-language specification.

The TypeScript source is shallowly embedded: JavaScript numbers are
modelled as `ℚ`; a JavaScript division whose result may be non-finite
(`NaN` or `±Infinity`, from a zero denominator) is modelled as
`Option ℚ` with `none` standing for the non-finite result, and
arithmetic on such values propagates `none` exactly as JavaScript
arithmetic propagates `NaN`.
-/

namespace Groww

set_option maxRecDepth 8000

/-- OHLCV candle, as unpacked from a `candles` row
(`[timestamp, open, high, low, close, volume]`) in `src/index.ts`. -/
structure Candle where
  timestamp : ℤ
  open_ : ℚ
  high : ℚ
  low : ℚ
  close : ℚ
  volume : ℚ
deriving DecidableEq, Repr

/-- The data-model invariant on a candle:
`low ≤ min(open, close) ≤ max(open, close) ≤ high`. -/
def ValidCandle (c : Candle) : Prop :=
  c.low ≤ c.open_ ∧ c.low ≤ c.close ∧ c.open_ ≤ c.high ∧ c.close ≤ c.high

instance (c : Candle) : Decidable (ValidCandle c) := by
  unfold ValidCandle; infer_instance

/-- JavaScript division on finite values: a zero denominator produces a
non-finite number (`NaN` or `±Infinity`), modelled as `none`. -/
def jsDiv (a b : ℚ) : Option ℚ :=
  if b = 0 then none else some (a / b)

/-- Lift of addition to possibly-non-finite values (`NaN` propagates). -/
def jsAdd (a b : Option ℚ) : Option ℚ :=
  match a, b with
  | some a, some b => some (a + b)
  | _, _ => none

/-- Lift of multiplication to possibly-non-finite values.
(JavaScript's `NaN` annihilates any product, including by `0`.) -/
def jsMul (a b : Option ℚ) : Option ℚ :=
  match a, b with
  | some a, some b => some (a * b)
  | _, _ => none

/-- Sum of a list of possibly-non-finite values. -/
def jsSum (l : List (Option ℚ)) : Option ℚ :=
  l.foldl jsAdd (some 0)

/-! ## RangeValidator (`validateHistoricalDataRequest`) -/

/-- Milliseconds per day, the unit in which `Date.getTime` differences
are converted to days in `validateHistoricalDataRequest`. -/
def msPerDay : ℚ := 1000 * 60 * 60 * 24

/-- Reasons `validateHistoricalDataRequest` rejects a request,
matching its three error messages. -/
inductive RejectReason where
  | unsupportedInterval
  | durationTooLong
  | dataTooOld
deriving DecidableEq, Repr

/-- Result of `validateHistoricalDataRequest`. -/
inductive ValidationResult where
  | ok
  | rejected (reason : RejectReason)
deriving DecidableEq, Repr

/-- The `constraints` table of `validateHistoricalDataRequest`:
interval (minutes) ↦ `(maxDuration, maxHistoryMonths)`.
`none` in the first slot is the table's `Infinity` (never exceeded);
`none` in the second is its `null` (check skipped). -/
def intervalConstraint : ℕ → Option (Option ℚ × Option ℚ)
  | 1 => some (some 3, some 3)
  | 5 => some (some 15, some 3)
  | 10 => some (some 30, some 3)
  | 60 => some (some 150, some 3)
  | 240 => some (some 365, some 3)
  | 1440 => some (some 1080, none)
  | 10080 => some (none, none)
  | _ => none

/-- Source: `x > limit` where an absent limit (`Infinity` / `null`) never
triggers, as in the two limit checks of `validateHistoricalDataRequest`. -/
def exceedsLimit (x : ℚ) : Option ℚ → Bool
  | none => false
  | some l => decide (l < x)

/-- Source: `validateHistoricalDataRequest` from `src/index.ts`: times are in
milliseconds since epoch (`Date.getTime`), `now` is passed explicitly. -/
def validateHistoricalDataRequest (interval : ℕ) (startTime endTime now : ℚ) :
    ValidationResult :=
  let durationDays : ℤ := ⌈(endTime - startTime) / msPerDay⌉
  let monthsAgo : ℚ := (now - startTime) / (msPerDay * 30)
  match intervalConstraint interval with
  | none => .rejected .unsupportedInterval
  | some (maxDuration, maxHistoryMonths) =>
    if exceedsLimit (durationDays : ℚ) maxDuration then .rejected .durationTooLong
    else if exceedsLimit monthsAgo maxHistoryMonths then .rejected .dataTooOld
    else .ok

/-- The supported-interval set named by the specification. -/
def specSupportedIntervals : List ℕ := [1, 5, 10, 60, 240, 1440, 10080]

/-- Modelled from the spec's fixed table: `maxDurationDays` per interval
(`none` = unbounded). -/
def specMaxDurationDays : ℕ → Option ℚ
  | 1 => some 3
  | 5 => some 15
  | 10 => some 30
  | 60 => some 150
  | 240 => some 365
  | 1440 => some 1080
  | _ => none

/-- Modelled from the spec's fixed table: `maxHistoryMonths` per interval
(`none` = unbounded). -/
def specMaxHistoryMonths : ℕ → Option ℚ
  | 1 => some 3
  | 5 => some 3
  | 10 => some 3
  | 60 => some 3
  | 240 => some 3
  | _ => none

/-- Acceptance as described by the spec's words: the interval is
supported, the ceiling of the duration in days does not exceed
`maxDurationDays` (when bounded), and the 30-day-month age of the start
does not exceed `maxHistoryMonths` (when bounded). -/
def specAccepts (interval : ℕ) (startTime endTime now : ℚ) : Prop :=
  interval ∈ specSupportedIntervals
  ∧ (∀ d, specMaxDurationDays interval = some d →
      ((⌈(endTime - startTime) / msPerDay⌉ : ℤ) : ℚ) ≤ d)
  ∧ (∀ m, specMaxHistoryMonths interval = some m →
      (now - startTime) / (msPerDay * 30) ≤ m)

/-! ## MovingAverageKit: SMA (`calculate_moving_averages`) -/

/-- The SMA loop of `calculate_moving_averages`: for `i` from
`period − 1` to `closes.length − 1`, push the mean of
`closes.slice(i − period + 1, i + 1)`. -/
def smaValues (closes : List ℚ) (period : ℕ) : List ℚ :=
  (List.range' (period - 1) (closes.length + 1 - period)).map
    (fun i => ((closes.drop (i + 1 - period)).take period).sum / period)

/-! ## OscillatorSuite: RSI (`calculate_rsi`) -/

/-- Per-step price changes: `closes[i] − closes[i−1]`. -/
def priceChanges : List ℚ → List ℚ
  | a :: b :: rest => (b - a) :: priceChanges (b :: rest)
  | _ => []

/-- Source: `change > 0 ? change : 0`. -/
def gains (changes : List ℚ) : List ℚ :=
  changes.map (fun c => if 0 < c then c else 0)

/-- Source: `change < 0 ? Math.abs(change) : 0`. -/
def losses (changes : List ℚ) : List ℚ :=
  changes.map (fun c => if c < 0 then |c| else 0)

/-- The RSI emitted for given smoothed averages: `100` when
`avgLoss == 0`, else `100 − 100/(1 + avgGain/avgLoss)`. -/
def rsiValue (avgGain avgLoss : ℚ) : ℚ :=
  if avgLoss = 0 then 100 else 100 - 100 / (1 + avgGain / avgLoss)

/-- The RSI loop of `calculate_rsi`: at each remaining (gain, loss)
step emit the RSI of the current averages, then update both averages by
Wilder smoothing `avg = (avg*(period−1) + new)/period`. -/
def rsiLoop (period : ℕ) (avgGain avgLoss : ℚ) : List (ℚ × ℚ) → List ℚ
  | [] => []
  | (g, l) :: rest =>
      rsiValue avgGain avgLoss ::
        rsiLoop period ((avgGain * ((period : ℚ) - 1) + g) / period)
          ((avgLoss * ((period : ℚ) - 1) + l) / period) rest

/-- Structured insufficient-data error: the code's message reports the
needed and available candle counts. -/
inductive IndicatorError where
  | insufficientData (needed available : ℕ)
deriving DecidableEq, Repr

/-- Source: `calculate_rsi` from `src/index.ts`: guard on `period + 1` candles,
seed the averages with the simple mean of the first `period`
gains/losses, then run the Wilder-smoothed loop. -/
def calculate_rsi (closes : List ℚ) (period : ℕ) :
    Except IndicatorError (List ℚ) :=
  if closes.length < period + 1 then
    .error (.insufficientData (period + 1) closes.length)
  else
    let changes := priceChanges closes
    let gs := gains changes
    let ls := losses changes
    let avgGain := (gs.take period).sum / period
    let avgLoss := (ls.take period).sum / period
    .ok (rsiLoop period avgGain avgLoss ((gs.zip ls).drop period))

/-- Source: `Math.max(...)` over a nonempty list (the callers below only apply
it to nonempty windows; the empty case is unreachable behind guards). -/
def listMax : List ℚ → ℚ
  | [] => 0
  | x :: xs => xs.foldl max x

/-- Source: `Math.min(...)` over a nonempty list. -/
def listMin : List ℚ → ℚ
  | [] => 0
  | x :: xs => xs.foldl min x

/-- Division of a possibly-non-finite numerator by a finite denominator. -/
def jsDivO (a : Option ℚ) (b : ℚ) : Option ℚ :=
  a.bind (fun x => jsDiv x b)

/-- Default candle used for (guarded, in-range) list indexing. -/
def defaultCandle : Candle := ⟨0, 0, 0, 0, 0, 0⟩

/-- The %K loop of `calculate_stochastic`: for each `i` from
`k_period − 1`, `%K = ((close[i] − lowestLow)/(highestHigh − lowestLow)) * 100`
over the trailing window of `k_period` candles. A flat window makes the
denominator zero and the division non-finite (`NaN`). -/
def stochasticKValues (candles : List Candle) (kPeriod : ℕ) : List (Option ℚ) :=
  (List.range' (kPeriod - 1) (candles.length + 1 - kPeriod)).map
    (fun i =>
      let window := (candles.drop (i + 1 - kPeriod)).take kPeriod
      let highestHigh := listMax (window.map (·.high))
      let lowestLow := listMin (window.map (·.low))
      jsMul (jsDiv ((candles.getD i defaultCandle).close - lowestLow)
        (highestHigh - lowestLow)) (some 100))

/-- Source: `calculate_stochastic` from `src/index.ts`: guard on
`k_period + d_period` candles, then compute %K and %D (= SMA of %K over
`d_period`). The division in %K is unguarded. -/
def calculate_stochastic (candles : List Candle) (kPeriod dPeriod : ℕ) :
    Except IndicatorError (List (Option ℚ) × List (Option ℚ)) :=
  if candles.length < kPeriod + dPeriod then
    .error (.insufficientData (kPeriod + dPeriod) candles.length)
  else
    let kValues := stochasticKValues candles kPeriod
    let dValues := (List.range' (dPeriod - 1) (kValues.length + 1 - dPeriod)).map
      (fun i => jsDivO (jsSum ((kValues.drop (i + 1 - dPeriod)).take dPeriod)) dPeriod)
    .ok (kValues, dValues)

/-- A completely flat candle at price 100. -/
def flatCandle : Candle := ⟨0, 100, 100, 100, 100, 0⟩

/-- Subtraction on possibly-non-finite values. -/
def jsSub (a b : Option ℚ) : Option ℚ :=
  match a, b with
  | some a, some b => some (a - b)
  | _, _ => none

/-- Division where both operands may already be non-finite. -/
def jsDiv2 (a b : Option ℚ) : Option ℚ :=
  match a, b with
  | some a, some b => jsDiv a b
  | _, _ => none

/-- Source: `Math.sqrt` on a possibly-non-finite value: `NaN` for a negative or
non-finite argument, otherwise the (abstract) square root `sqrtF`. -/
def jsSqrt (sqrtF : ℚ → ℚ) (a : Option ℚ) : Option ℚ :=
  a.bind (fun v => if v < 0 then none else some (sqrtF v))

/-- Per-step simple returns `(close[i] − close[i−1]) / close[i−1]`. -/
def volReturns : List Candle → List (Option ℚ)
  | a :: b :: rest => jsDiv (b.close - a.close) a.close :: volReturns (b :: rest)
  | _ => []

/-- Per-step true ranges
`max(high−low, |high−prevClose|, |low−prevClose|)`. -/
def trueRanges : List Candle → List ℚ
  | a :: b :: rest =>
      max (b.high - b.low) (max |b.high - a.close| |b.low - a.close|)
        :: trueRanges (b :: rest)
  | _ => []

/-- Result record of `calculate_volatility_metrics` (the fields the
claims are about). -/
structure VolatilityMetrics where
  annualizedVolatility : Option ℚ
  atr : Option ℚ
  sharpeRatio : Option ℚ
deriving DecidableEq, Repr

/-- Source: `calculate_volatility_metrics` from `src/index.ts`, with the square
root left abstract (`sqrtF`): guard on 2 candles, mean and sample
variance (`/(n−1)`) of returns, annualized volatility, ATR, and the
Sharpe-like ratio with fixed risk-free rate `0.06`. -/
def calculate_volatility_metrics (sqrtF : ℚ → ℚ) (candles : List Candle) :
    Except IndicatorError VolatilityMetrics :=
  if candles.length < 2 then .error (.insufficientData 2 candles.length)
  else
    let returns := volReturns candles
    let meanReturn := jsDivO (jsSum returns) (returns.length : ℚ)
    let variance := jsDivO
      (jsSum (returns.map (fun r => jsMul (jsSub r meanReturn) (jsSub r meanReturn))))
      ((returns.length : ℚ) - 1)
    let dailyVolatility := jsSqrt sqrtF variance
    let annualizedVolatility := jsMul (jsMul dailyVolatility (some (sqrtF 252))) (some 100)
    let atr := jsDiv (trueRanges candles).sum ((candles.length : ℚ) - 1)
    let excessReturn := jsSub (jsMul meanReturn (some 252)) (some (6 / 100))
    let sharpeRatio := jsDiv2 excessReturn (jsMul dailyVolatility (some (sqrtF 252)))
    .ok ⟨annualizedVolatility, atr, sharpeRatio⟩

/-- Candlestick pattern kinds recognised by `analyze_candlestick_patterns`. -/
inductive PatternKind where
  | hammer
  | hangingMan
  | doji
  | shootingStar
  | bullishEngulfing
  | bearishEngulfing
  | longBullishCandle
  | longBearishCandle
deriving DecidableEq, Repr

/-- A detected pattern: its kind and the index it is reported at. -/
structure Pattern where
  kind : PatternKind
  position : ℕ
deriving DecidableEq, Repr

/-- Source: `close > open`. -/
def isBullish (c : Candle) : Prop := c.open_ < c.close

/-- Source: `close < open`. -/
def isBearish (c : Candle) : Prop := c.close < c.open_

instance (c : Candle) : Decidable (isBullish c) := by unfold isBullish; infer_instance

instance (c : Candle) : Decidable (isBearish c) := by unfold isBearish; infer_instance

/-- Source: `|close − open|`. -/
def bodySize (c : Candle) : ℚ := |c.close - c.open_|

/-- Source: `high − max(open, close)`. -/
def upperShadow (c : Candle) : ℚ := c.high - max c.open_ c.close

/-- Source: `min(open, close) − low`. -/
def lowerShadow (c : Candle) : ℚ := min c.open_ c.close - c.low

/-- Source: `high − low`. -/
def totalRange (c : Candle) : ℚ := c.high - c.low

/-- Source: `bodySize > 0.6 * totalRange`. -/
def isLongBody (c : Candle) : Prop := totalRange c * (6 / 10) < bodySize c

instance (c : Candle) : Decidable (isLongBody c) := by unfold isLongBody; infer_instance

/-- The patterns pushed during the loop iteration at index `i` of
`analyze_candlestick_patterns`, in push order: hammer / hanging man,
doji, shooting star, the two engulfing checks (reported at `i + 1`),
then long-body candles. `prev = candles[i−1]`, `current = candles[i]`,
`next = candles[i+1]` (the loop bound makes all three indices valid). -/
def patternsAt (candles : List Candle) (i : ℕ) : List Pattern :=
  let prev := candles.getD (i - 1) defaultCandle
  let current := candles.getD i defaultCandle
  let next := candles.getD (i + 1) defaultCandle
  (if bodySize current * 2 < lowerShadow current
      ∧ upperShadow current < bodySize current * (1 / 2) then
    if isBearish prev ∧ isBullish current then [⟨.hammer, i⟩]
    else if isBullish prev ∧ (isBullish current ∨ isBearish current) then
      [⟨.hangingMan, i⟩]
    else []
  else [])
  ++ (if bodySize current < totalRange current * (1 / 10) then [⟨.doji, i⟩] else [])
  ++ (if bodySize current * 2 < upperShadow current
        ∧ lowerShadow current < bodySize current * (1 / 2)
        ∧ isBullish prev then [⟨.shootingStar, i⟩] else [])
  ++ (if isBearish current ∧ isBullish next
        ∧ next.open_ < current.close ∧ current.open_ < next.close
        ∧ bodySize current < bodySize next then [⟨.bullishEngulfing, i + 1⟩] else [])
  ++ (if isBullish current ∧ isBearish next
        ∧ current.close < next.open_ ∧ next.close < current.open_
        ∧ bodySize current < bodySize next then [⟨.bearishEngulfing, i + 1⟩] else [])
  ++ (if isLongBody current then
        if isBullish current then [⟨.longBullishCandle, i⟩]
        else [⟨.longBearishCandle, i⟩]
      else [])

/-- The pattern loop of `analyze_candlestick_patterns`: iterate `i` from
`1` to `candles.length − 2` over the trailing window and collect the
patterns pushed at each iteration. -/
def analyzeCandlestickPatterns (candles : List Candle) : List Pattern :=
  (List.range' 1 (candles.length - 2)).flatMap (patternsAt candles)

def candX : Candle := ⟨0, 100, 101, 99, 100, 0⟩

/-- Candle A of the spec's engulfing example: `{open: 100, close: 95}`. -/
def candA : Candle := ⟨1, 100, 100, 95, 95, 0⟩

/-- Candle B of the spec's engulfing example: `{open: 94, close: 102}`. -/
def candB : Candle := ⟨2, 94, 102, 94, 102, 0⟩

def candA2 : Candle := ⟨1, 95, 100, 95, 100, 0⟩

def candB2 : Candle := ⟨2, 102, 102, 94, 94, 0⟩

def candDoji : Candle := ⟨1, 100, 105, 95, 100, 0⟩

/-- A pivot extremum `{price, timestamp}`. -/
structure PivotPoint where
  price : ℚ
  timestamp : ℤ
deriving DecidableEq, Repr

/-- A clustered level `{price: group mean, touches: group size,
lastTouch: max timestamp}`. -/
structure Level where
  price : ℚ
  touches : ℕ
  lastTouch : ℤ
deriving DecidableEq, Repr

/-- Source: `Math.max(...)` over a nonempty list of integers (timestamps). -/
def listMaxZ : List ℤ → ℤ
  | [] => 0
  | x :: xs => xs.foldl max x

/-- Running mean price of a group (`reduce`-sum divided by length). -/
def groupMean (g : List PivotPoint) : ℚ :=
  (g.map (·.price)).sum / g.length

/-- Source: `Math.abs(pivot.price − avgPrice) / avgPrice <= tolerance`; a zero
mean makes the quotient non-finite, which compares false in JavaScript. -/
def withinTolerance (price avg tol : ℚ) : Bool :=
  if avg = 0 then false else decide (|price - avg| / avg ≤ tol)

/-- Add a pivot to the first group whose running mean is within
tolerance of its price, else start a new group at the end. -/
def insertPivot (tol : ℚ) (groups : List (List PivotPoint)) (pivot : PivotPoint) :
    List (List PivotPoint) :=
  match groups with
  | [] => [[pivot]]
  | g :: rest =>
      if withinTolerance pivot.price (groupMean g) tol then (g ++ [pivot]) :: rest
      else g :: insertPivot tol rest pivot

/-- The grouping pass of `groupLevels`, over pivots in original order. -/
def buildGroups (tol : ℚ) (pivots : List PivotPoint) : List (List PivotPoint) :=
  pivots.foldl (insertPivot tol) []

/-- Source: `groupLevels` from `calculate_support_resistance`: group, drop
groups smaller than `minTouches`, reduce each to a Level. -/
def groupLevels (pivots : List PivotPoint) (minTouches : ℕ) (tol : ℚ) : List Level :=
  ((buildGroups tol pivots).filter (fun g => minTouches ≤ g.length)).map
    (fun g => ⟨groupMean g, g.length, listMaxZ (g.map (·.timestamp))⟩)

/-- The caller's `sort((a, b) => b.touches - a.touches)`: stable sort by
touch count descending. -/
def sortLevels (levels : List Level) : List Level :=
  levels.mergeSort (fun a b => decide (b.touches ≤ a.touches))

/-- Levels as produced by `calculate_support_resistance` for one pivot
family: grouped, filtered by `minTouches`, sorted by touches descending. -/
def supportResistanceLevels (pivots : List PivotPoint) (minTouches : ℕ) (tol : ℚ) :
    List Level :=
  sortLevels (groupLevels pivots minTouches tol)

/-- The `trend_direction` parameter of `calculate_fibonacci_levels`. -/
inductive TrendDirection where
  | UP
  | DOWN
  | AUTO
deriving DecidableEq, Repr

/-- Highest high of the window (`Math.max(...highs)`). -/
def maxHigh (candles : List Candle) : ℚ := listMax (candles.map (·.high))

/-- Lowest low of the window (`Math.min(...lows)`). -/
def minLow (candles : List Candle) : ℚ := listMin (candles.map (·.low))

/-- Source: `AUTO` direction resolution: compare the mean close of the first
quarter of candles to that of the last quarter. -/
def resolveDirection (candles : List Candle) : TrendDirection → TrendDirection
  | .AUTO =>
      let q := candles.length / 4
      let firstQuarter := candles.take q
      let lastQuarter := candles.drop (candles.length - q)
      let avgEarlyPrice := (firstQuarter.map (·.close)).sum / firstQuarter.length
      let avgLatePrice := (lastQuarter.map (·.close)).sum / lastQuarter.length
      if avgEarlyPrice < avgLatePrice then .UP else .DOWN
  | d => d

/-- The code's retracement ratios. -/
def fibRetracementRatios : List ℚ :=
  [0, 236 / 1000, 382 / 1000, 1 / 2, 618 / 1000, 786 / 1000, 1]

/-- The code's extension ratios. -/
def fibExtensionRatios : List ℚ :=
  [1272 / 1000, 1414 / 1000, 1618 / 1000, 2, 2618 / 1000]

/-- The level computation of `calculate_fibonacci_levels`: pairs
`(ratio, price)` for retracement and extension levels, after resolving
the direction. -/
def fibonacciLevels (candles : List Candle) (dir : TrendDirection) :
    List (ℚ × ℚ) × List (ℚ × ℚ) :=
  let direction := resolveDirection candles dir
  let high := maxHigh candles
  let low := minLow candles
  let range := high - low
  (fibRetracementRatios.map (fun ratio =>
      (ratio, if direction = .UP then high - range * ratio else low + range * ratio)),
   fibExtensionRatios.map (fun ratio =>
      (ratio, if direction = .UP then high + range * (ratio - 1)
              else low - range * (ratio - 1))))

/-- Source: `calculate_fibonacci_levels` with its 10-candle guard. -/
def calculate_fibonacci_levels (candles : List Candle) (dir : TrendDirection) :
    Except IndicatorError (List (ℚ × ℚ) × List (ℚ × ℚ)) :=
  if candles.length < 10 then .error (.insufficientData 10 candles.length)
  else .ok (fibonacciLevels candles dir)

/-- A 10-candle window with highest high 120 and lowest low 100. -/
def fibExampleCandles : List Candle :=
  [⟨0, 100, 120, 100, 110, 0⟩, ⟨1, 110, 115, 105, 110, 0⟩,
   ⟨2, 110, 115, 105, 110, 0⟩, ⟨3, 110, 115, 105, 110, 0⟩,
   ⟨4, 110, 115, 105, 110, 0⟩, ⟨5, 110, 115, 105, 110, 0⟩,
   ⟨6, 110, 115, 105, 110, 0⟩, ⟨7, 110, 115, 105, 110, 0⟩,
   ⟨8, 110, 115, 105, 110, 0⟩, ⟨9, 110, 115, 105, 110, 0⟩]

/-- One step of `calculate_adx`'s first loop: the true range and the
directional movements `+DM`/`-DM` for a candle and its predecessor. -/
def dmStep (prev current : Candle) : ℚ × ℚ × ℚ :=
  (max (current.high - current.low)
     (max |current.high - prev.close| |current.low - prev.close|),
   if prev.low - current.low < current.high - prev.high
     then max (current.high - prev.high) 0 else 0,
   if current.high - prev.high < prev.low - current.low
     then max (prev.low - current.low) 0 else 0)

/-- Source: `(trueRange, +DM, −DM)` per adjacent candle pair. -/
def dmTriples : List Candle → List (ℚ × ℚ × ℚ)
  | a :: b :: rest => dmStep a b :: dmTriples (b :: rest)
  | _ => []

/-- One Wilder update `sum = sum − sum/period + new`, applied to the
three running sums at once. -/
def wilderUpdate (period : ℕ) (s x : ℚ × ℚ × ℚ) : ℚ × ℚ × ℚ :=
  (s.1 - s.1 / period + x.1,
   s.2.1 - s.2.1 / period + x.2.1,
   s.2.2 - s.2.2 / period + x.2.2)

/-- The smoothing loop: push the current sums, then update with each
remaining triple (the code pushes the seed first, then one entry per
update). -/
def wilderSmooth (period : ℕ) (s : ℚ × ℚ × ℚ) :
    List (ℚ × ℚ × ℚ) → List (ℚ × ℚ × ℚ)
  | [] => [s]
  | x :: rest => s :: wilderSmooth period (wilderUpdate period s x) rest

/-- Initial sums: plain sums of the first `period` TR/+DM/−DM values. -/
def seedSums (period : ℕ) (triples : List (ℚ × ℚ × ℚ)) : ℚ × ℚ × ℚ :=
  (((triples.take period).map (·.1)).sum,
   ((triples.take period).map (·.2.1)).sum,
   ((triples.take period).map (·.2.2)).sum)

/-- The smoothed TR/+DM/−DM series of `calculate_adx`. -/
def smoothedTriples (candles : List Candle) (period : ℕ) : List (ℚ × ℚ × ℚ) :=
  let triples := dmTriples candles
  wilderSmooth period (seedSums period triples) (triples.drop period)

/-- Source: `+DI = (smoothed(+DM)/smoothed(TR)) * 100` and symmetrically `−DI`;
a zero smoothed TR makes both non-finite. -/
def diPairs (candles : List Candle) (period : ℕ) :
    List (Option ℚ × Option ℚ) :=
  (smoothedTriples candles period).map
    (fun s => (jsMul (jsDiv s.2.1 s.1) (some 100),
               jsMul (jsDiv s.2.2 s.1) (some 100)))

/-- Source: `DX = diSum !== 0 ? (|+DI − −DI| / (+DI + −DI)) * 100 : 0`; a
non-finite DI propagates (`NaN !== 0` holds in JavaScript). -/
def dxOf : Option ℚ × Option ℚ → Option ℚ
  | (some p, some m) =>
      if p + m = 0 then some 0 else some (|p - m| / (p + m) * 100)
  | _ => none

/-- The DX series. -/
def dxValues (candles : List Candle) (period : ℕ) : List (Option ℚ) :=
  (diPairs candles period).map dxOf

/-- The ADX Wilder loop: `adxSum = ((adxSum*(period−1)) + dx[i])/period`,
pushing after each update. -/
def adxScan (period : ℕ) (s : Option ℚ) : List (Option ℚ) → List (Option ℚ)
  | [] => []
  | x :: rest =>
      let s' := jsDivO (jsAdd (jsMul s (some ((period : ℚ) - 1))) x) period
      s' :: adxScan period s' rest

/-- The ADX series: empty unless `dx.length ≥ period`, else the simple
mean of the first `period` DX values followed by Wilder smoothing. -/
def adxValues (candles : List Candle) (period : ℕ) : List (Option ℚ) :=
  if period ≤ (dxValues candles period).length then
    jsDivO (jsSum ((dxValues candles period).take period)) period
      :: adxScan period (jsDivO (jsSum ((dxValues candles period).take period)) period)
        ((dxValues candles period).drop period)
  else []

/-- Result record of `calculate_adx` (the series the claims are about). -/
structure ADXResult where
  plusDI : List (Option ℚ)
  minusDI : List (Option ℚ)
  dx : List (Option ℚ)
  adx : List (Option ℚ)
deriving DecidableEq, Repr

/-- Source: `calculate_adx` from `src/index.ts`: guard on `period * 2` candles,
then the TR/DM, Wilder smoothing, DI, DX and ADX stages. -/
def calculate_adx (candles : List Candle) (period : ℕ) :
    Except IndicatorError ADXResult :=
  if candles.length < period * 2 then
    .error (.insufficientData (period * 2) candles.length)
  else
    .ok ⟨(diPairs candles period).map Prod.fst,
         (diPairs candles period).map Prod.snd,
         dxValues candles period,
         adxValues candles period⟩

/-- Invariant carried through the Wilder smoothing: positive smoothed
TR, nonnegative smoothed DMs, each bounded by the smoothed TR. -/
def TripleInv (x : ℚ × ℚ × ℚ) : Prop :=
  0 < x.1 ∧ 0 ≤ x.2.1 ∧ x.2.1 ≤ x.1 ∧ 0 ≤ x.2.2 ∧ x.2.2 ≤ x.1

/-- A valid, non-degenerate candle (positive range). -/
def adxWitnessCandle : Candle := ⟨0, 3 / 2, 2, 1, 3 / 2, 0⟩

/-! ## Theorems -/

lemma exceedsLimit_eq_false_iff (x : ℚ) (o : Option ℚ) :
    exceedsLimit x o = false ↔ ∀ l, o = some l → x ≤ l := by
  cases o <;> simp [exceedsLimit]

lemma intervalConstraint_eq_none (i : ℕ) (h : i ∉ specSupportedIntervals) :
    intervalConstraint i = none := by
  unfold intervalConstraint
  split
  all_goals simp_all [specSupportedIntervals]

lemma validate_eq_of_constraint (i : ℕ) (s e t : ℚ) (md mh : Option ℚ)
    (hc : intervalConstraint i = some (md, mh)) :
    validateHistoricalDataRequest i s e t =
      (if exceedsLimit ((⌈(e - s) / msPerDay⌉ : ℤ) : ℚ) md then .rejected .durationTooLong
       else if exceedsLimit ((t - s) / (msPerDay * 30)) mh then .rejected .dataTooOld
       else .ok) := by
  unfold validateHistoricalDataRequest
  rw [hc]

lemma validate_iff_aux (i : ℕ) (s e t : ℚ) (md mh : Option ℚ)
    (hc : intervalConstraint i = some (md, mh))
    (hmem : i ∈ specSupportedIntervals)
    (hd : specMaxDurationDays i = md) (hh : specMaxHistoryMonths i = mh) :
    (validateHistoricalDataRequest i s e t = .ok ↔ specAccepts i s e t)
    ∧ (validateHistoricalDataRequest i s e t = .rejected .unsupportedInterval
        ↔ i ∉ specSupportedIntervals) := by
  rw [validate_eq_of_constraint i s e t md mh hc]
  unfold specAccepts
  rw [hd, hh]
  constructor
  · split_ifs with hA hB
    · simp only [reduceCtorEq, false_iff, not_and]
      intro _ hdur _
      exact absurd hA (by simp [(exceedsLimit_eq_false_iff _ _).mpr hdur])
    · simp only [reduceCtorEq, false_iff, not_and]
      intro _ _ hmon
      exact absurd hB (by simp [(exceedsLimit_eq_false_iff _ _).mpr hmon])
    · simp only [true_iff]
      refine ⟨hmem, ?_, ?_⟩
      · rw [← exceedsLimit_eq_false_iff]; simpa using hA
      · rw [← exceedsLimit_eq_false_iff]; simpa using hB
  · split_ifs <;> simp [hmem]

lemma validate_iff_unsupported (i : ℕ) (s e t : ℚ)
    (hmem : i ∉ specSupportedIntervals) :
    (validateHistoricalDataRequest i s e t = .ok ↔ specAccepts i s e t)
    ∧ (validateHistoricalDataRequest i s e t = .rejected .unsupportedInterval
        ↔ i ∉ specSupportedIntervals) := by
  have hc := intervalConstraint_eq_none i hmem
  unfold validateHistoricalDataRequest specAccepts
  rw [hc]
  simp [hmem]

/-- C1: `validateHistoricalDataRequest` accepts exactly the requests the
spec's table allows: an unknown interval is rejected as unsupported (the
supported set being exactly {1, 5, 10, 60, 240, 1440, 10080} minutes); a
supported interval is accepted iff the ceiling of `(endTime − startTime)`
in days does not exceed the table's `maxDurationDays` and, when
`maxHistoryMonths` is bounded, `(now − startTime)` in 30-day months does
not exceed it. In particular interval 1440 with start 730 days before
now is accepted, interval 1 with a 4-day duration is rejected for
duration, and interval 999 is rejected as unsupported. -/
theorem C1_range_validator (i : ℕ) (s e t : ℚ) :
    (validateHistoricalDataRequest i s e t = .ok ↔ specAccepts i s e t)
    ∧ (validateHistoricalDataRequest i s e t = .rejected .unsupportedInterval
        ↔ i ∉ specSupportedIntervals)
    ∧ validateHistoricalDataRequest 1440 (1760000000000 - 730 * msPerDay)
        1760000000000 1760000000000 = .ok
    ∧ validateHistoricalDataRequest 1 0 (4 * msPerDay) (4 * msPerDay)
        = .rejected .durationTooLong
    ∧ validateHistoricalDataRequest 999 0 0 0 = .rejected .unsupportedInterval := by
  have main : (validateHistoricalDataRequest i s e t = .ok ↔ specAccepts i s e t)
      ∧ (validateHistoricalDataRequest i s e t = .rejected .unsupportedInterval
          ↔ i ∉ specSupportedIntervals) := by
    by_cases h1 : i = 1
    · subst h1; exact validate_iff_aux _ s e t _ _ rfl (by decide) rfl rfl
    · by_cases h5 : i = 5
      · subst h5; exact validate_iff_aux _ s e t _ _ rfl (by decide) rfl rfl
      · by_cases h10 : i = 10
        · subst h10; exact validate_iff_aux _ s e t _ _ rfl (by decide) rfl rfl
        · by_cases h60 : i = 60
          · subst h60; exact validate_iff_aux _ s e t _ _ rfl (by decide) rfl rfl
          · by_cases h240 : i = 240
            · subst h240; exact validate_iff_aux _ s e t _ _ rfl (by decide) rfl rfl
            · by_cases h1440 : i = 1440
              · subst h1440; exact validate_iff_aux _ s e t _ _ rfl (by decide) rfl rfl
              · by_cases h10080 : i = 10080
                · subst h10080; exact validate_iff_aux _ s e t _ _ rfl (by decide) rfl rfl
                · exact validate_iff_unsupported i s e t
                    (by simp [specSupportedIntervals, h1, h5, h10, h60, h240, h1440, h10080])
  refine ⟨main.1, main.2, ?_, ?_, ?_⟩
  · unfold validateHistoricalDataRequest intervalConstraint
    norm_num [exceedsLimit, msPerDay]
  · unfold validateHistoricalDataRequest intervalConstraint
    norm_num [exceedsLimit, msPerDay]
  · unfold validateHistoricalDataRequest intervalConstraint
    norm_num [exceedsLimit, msPerDay]

/-- C5: for `1 ≤ p ≤ n`, the SMA output has length `n − p + 1` and its
`i`-th element is the naive arithmetic mean of the `p` consecutive
inputs starting at index `i` (ending at index `p − 1 + i`). -/
theorem C5_sma (v : List ℚ) (p : ℕ) (h1 : 1 ≤ p) (h2 : p ≤ v.length) :
    (smaValues v p).length = v.length - p + 1
    ∧ ∀ i : ℕ, i < v.length - p + 1 →
        (smaValues v p)[i]? = some (((v.drop i).take p).sum / p) := by
  constructor
  · simp only [smaValues, List.length_map, List.length_range']
    omega
  · intro i hi
    have hcnt : i < v.length + 1 - p := by omega
    simp only [smaValues, List.getElem?_map, List.getElem?_range' _ _ hcnt, Option.map_some']
    have hidx : p - 1 + 1 * i + 1 - p = i := by omega
    rw [hidx]

/-- Witness for C5 at `v = [1, 2, 3]`, `p = 2`. -/
theorem C5_sma_witness :
    (smaValues [1, 2, 3] 2).length = ([1, 2, 3] : List ℚ).length - 2 + 1
    ∧ ∀ i : ℕ, i < ([1, 2, 3] : List ℚ).length - 2 + 1 →
        (smaValues [1, 2, 3] 2)[i]? =
          some (((([1, 2, 3] : List ℚ).drop i).take 2).sum / 2) :=
  C5_sma [1, 2, 3] 2 (by norm_num) (by norm_num)

lemma rsiValue_bounds (g l : ℚ) (hg : 0 ≤ g) (hl : 0 ≤ l) :
    0 ≤ rsiValue g l ∧ rsiValue g l ≤ 100 := by
  unfold rsiValue
  split_ifs with h
  · norm_num
  · have hl' : 0 < l := lt_of_le_of_ne hl (Ne.symm h)
    have hrs : 0 ≤ g / l := div_nonneg hg hl'.le
    have h1 : (0 : ℚ) < 1 + g / l := by linarith
    constructor
    · have : 100 / (1 + g / l) ≤ 100 := div_le_self (by norm_num) (by linarith)
      linarith
    · have : 0 < 100 / (1 + g / l) := div_pos (by norm_num) h1
      linarith

lemma rsiLoop_bounds (period : ℕ) (hp : 1 ≤ period) :
    ∀ (gl : List (ℚ × ℚ)) (g l : ℚ), 0 ≤ g → 0 ≤ l →
      (∀ p ∈ gl, 0 ≤ p.1 ∧ 0 ≤ p.2) →
      ∀ r ∈ rsiLoop period g l gl, 0 ≤ r ∧ r ≤ 100 := by
  intro gl
  induction gl with
  | nil => intro g l _ _ _ r hr; simp [rsiLoop] at hr
  | cons hd tl ih =>
    intro g l hg hl hgl r hr
    obtain ⟨g0, l0⟩ := hd
    simp only [rsiLoop, List.mem_cons] at hr
    have hper : (0 : ℚ) ≤ (period : ℚ) - 1 := by
      have : (1 : ℚ) ≤ (period : ℚ) := by exact_mod_cast hp
      linarith
    have hper' : (0 : ℚ) < (period : ℚ) := by
      have : (1 : ℚ) ≤ (period : ℚ) := by exact_mod_cast hp
      linarith
    have hg0 : 0 ≤ g0 := (hgl _ (List.mem_cons_self _ _)).1
    have hl0 : 0 ≤ l0 := (hgl _ (List.mem_cons_self _ _)).2
    rcases hr with h | h
    · subst h; exact rsiValue_bounds g l hg hl
    · refine ih _ _ ?_ ?_ (fun p hp' => hgl p (List.mem_cons_of_mem _ hp')) r h
      · exact div_nonneg (by positivity) hper'.le
      · exact div_nonneg (by positivity) hper'.le

theorem C3_rsi (closes : List ℚ) (period : ℕ) (hp : 1 ≤ period) :
    (closes.length < period + 1 →
      calculate_rsi closes period
        = .error (.insufficientData (period + 1) closes.length))
    ∧ (∀ out, calculate_rsi closes period = .ok out →
        ∀ r ∈ out, 0 ≤ r ∧ r ≤ 100)
    ∧ (∀ g, rsiValue g 0 = 100) := by
  refine ⟨fun h => by simp [calculate_rsi, h], ?_, fun g => by simp [rsiValue]⟩
  intro out hout r hr
  by_cases h : closes.length < period + 1
  · simp [calculate_rsi, h] at hout
  · simp only [calculate_rsi, if_neg h, Except.ok.injEq] at hout
    subst hout
    have hgmem : ∀ x ∈ gains (priceChanges closes), 0 ≤ x := by
      intro x hx
      simp only [gains, List.mem_map] at hx
      obtain ⟨c, _, rfl⟩ := hx
      split_ifs with hc
      · exact hc.le
      · exact le_refl 0
    have hlmem : ∀ x ∈ losses (priceChanges closes), 0 ≤ x := by
      intro x hx
      simp only [losses, List.mem_map] at hx
      obtain ⟨c, _, rfl⟩ := hx
      split_ifs with hc
      · exact abs_nonneg c
      · exact le_refl 0
    refine rsiLoop_bounds period hp _ _ _ ?_ ?_ ?_ r hr
    · exact div_nonneg
        (List.sum_nonneg (fun x hx => hgmem x (List.mem_of_mem_take hx)))
        (Nat.cast_nonneg period)
    · exact div_nonneg
        (List.sum_nonneg (fun x hx => hlmem x (List.mem_of_mem_take hx)))
        (Nat.cast_nonneg period)
    · intro p hp'
      have hz := List.of_mem_zip (List.mem_of_mem_drop hp')
      exact ⟨hgmem _ hz.1, hlmem _ hz.2⟩

theorem C2_stochastic_flat_nan :
    calculate_stochastic [flatCandle, flatCandle, flatCandle] 2 1
      = .ok ([none, none], [none, none]) := by
  norm_num [calculate_stochastic, stochasticKValues, List.range', flatCandle,
    listMax, listMin, jsDiv, jsMul, jsDivO, jsSum, jsAdd, defaultCandle]

lemma jsDivO_zero (x : Option ℚ) : jsDivO x 0 = none := by
  cases x <;> simp [jsDivO, jsDiv]

lemma jsMul_none_left (y : Option ℚ) : jsMul none y = none := by
  cases y <;> rfl

lemma jsDiv2_none_right (x : Option ℚ) : jsDiv2 x none = none := by
  cases x <;> rfl

theorem C9_volatility_two_candles (sqrtF : ℚ → ℚ) (c0 c1 : Candle) :
    ∃ m, calculate_volatility_metrics sqrtF [c0, c1] = .ok m
      ∧ m.annualizedVolatility = none ∧ m.sharpeRatio = none := by
  simp only [calculate_volatility_metrics]
  rw [if_neg (by simp)]
  refine ⟨_, rfl, ?_, ?_⟩
  · simp [volReturns, jsDivO_zero, jsSqrt, jsMul_none_left]
  · simp [volReturns, jsDivO_zero, jsSqrt, jsMul_none_left, jsDiv2_none_right]

lemma patternsAt_mem (candles : List Candle) (i : ℕ) (p : Pattern)
    (hp : p ∈ patternsAt candles i) :
    (p.position = i ∧ p.kind ≠ .bullishEngulfing ∧ p.kind ≠ .bearishEngulfing)
    ∨ (p.position = i + 1
        ∧ (p.kind = .bullishEngulfing ∨ p.kind = .bearishEngulfing)) := by
  unfold patternsAt at hp
  simp only [List.mem_append] at hp
  rcases hp with ((((h | h) | h) | h) | h) | h
  all_goals split_ifs at h <;> simp_all

/-- C10: the pattern loop visits only positions `1 .. length − 2` as the
current candle, so a pattern at the most recent candle of the window can
only be an engulfing pattern, and every non-engulfing (single-candle)
pattern sits strictly before the most recent candle. -/
theorem C10_no_single_candle_pattern_at_last (candles : List Candle) (p : Pattern)
    (hp : p ∈ analyzeCandlestickPatterns candles) :
    (p.kind ≠ .bullishEngulfing → p.kind ≠ .bearishEngulfing →
      p.position + 2 ≤ candles.length)
    ∧ (p.position + 1 = candles.length →
      p.kind = .bullishEngulfing ∨ p.kind = .bearishEngulfing) := by
  obtain ⟨i, hi, hmem⟩ := List.mem_flatMap.mp hp
  have hrange : 1 ≤ i ∧ i < 1 + (candles.length - 2) := by
    simpa using List.mem_range'_1.mp hi
  have hlen : 3 ≤ candles.length := by omega
  rcases patternsAt_mem candles i p hmem with ⟨hpos, hk1, hk2⟩ | ⟨hpos, hk⟩
  · exact ⟨fun _ _ => by omega, fun hlast => absurd hlast (by omega)⟩
  · exact ⟨fun h1 h2 => by rcases hk with hk | hk <;> simp_all,
      fun _ => hk⟩

/-- C8: an adjacent pair examined by the pattern loop (current index
`i ≥ 1`, `i + 1 ≤ length − 1`) with a bearish first candle, bullish
second, the second opening below the first's close, closing above the
first's open, and a strictly larger body, is reported as Bullish
Engulfing at position `i + 1`; the mirrored conditions are reported as
Bearish Engulfing. -/
theorem C8_engulfing (candles : List Candle) (i : ℕ)
    (h1 : 1 ≤ i) (h2 : i + 2 ≤ candles.length) :
    (isBearish (candles.getD i defaultCandle)
      → isBullish (candles.getD (i + 1) defaultCandle)
      → (candles.getD (i + 1) defaultCandle).open_ < (candles.getD i defaultCandle).close
      → (candles.getD i defaultCandle).open_ < (candles.getD (i + 1) defaultCandle).close
      → bodySize (candles.getD i defaultCandle) < bodySize (candles.getD (i + 1) defaultCandle)
      → (⟨.bullishEngulfing, i + 1⟩ : Pattern) ∈ analyzeCandlestickPatterns candles)
    ∧ (isBullish (candles.getD i defaultCandle)
      → isBearish (candles.getD (i + 1) defaultCandle)
      → (candles.getD i defaultCandle).close < (candles.getD (i + 1) defaultCandle).open_
      → (candles.getD (i + 1) defaultCandle).close < (candles.getD i defaultCandle).open_
      → bodySize (candles.getD i defaultCandle) < bodySize (candles.getD (i + 1) defaultCandle)
      → (⟨.bearishEngulfing, i + 1⟩ : Pattern) ∈ analyzeCandlestickPatterns candles) := by
  constructor <;> intro hA hB hC hD hE <;> apply List.mem_flatMap.mpr <;>
    refine ⟨i, by simp [List.mem_range'_1]; omega, ?_⟩ <;> unfold patternsAt <;>
    simp only [List.mem_append]
  · left; left; right
    rw [if_pos ⟨hA, hB, hC, hD, hE⟩]
    simp
  · left; right
    rw [if_pos ⟨hA, hB, hC, hD, hE⟩]
    simp

/-- Witness for C8: the spec's example pair (and its mirror). -/
theorem C8_engulfing_witness :
    (⟨.bullishEngulfing, 2⟩ : Pattern)
      ∈ analyzeCandlestickPatterns [candX, candA, candB]
    ∧ (⟨.bearishEngulfing, 2⟩ : Pattern)
      ∈ analyzeCandlestickPatterns [candX, candA2, candB2] :=
  ⟨(C8_engulfing [candX, candA, candB] 1 (by norm_num) (by norm_num)).1
      (by norm_num [candX, candA, candB, candA2, candB2, defaultCandle, isBearish, isBullish, bodySize]) (by norm_num [candX, candA, candB, candA2, candB2, defaultCandle, isBearish, isBullish, bodySize]) (by norm_num [candX, candA, candB, candA2, candB2, defaultCandle, isBearish, isBullish, bodySize]) (by norm_num [candX, candA, candB, candA2, candB2, defaultCandle, isBearish, isBullish, bodySize]) (by norm_num [candX, candA, candB, candA2, candB2, defaultCandle, isBearish, isBullish, bodySize]),
   (C8_engulfing [candX, candA2, candB2] 1 (by norm_num) (by norm_num)).2
      (by norm_num [candX, candA, candB, candA2, candB2, defaultCandle, isBearish, isBullish, bodySize]) (by norm_num [candX, candA, candB, candA2, candB2, defaultCandle, isBearish, isBullish, bodySize]) (by norm_num [candX, candA, candB, candA2, candB2, defaultCandle, isBearish, isBullish, bodySize]) (by norm_num [candX, candA, candB, candA2, candB2, defaultCandle, isBearish, isBullish, bodySize]) (by norm_num [candX, candA, candB, candA2, candB2, defaultCandle, isBearish, isBullish, bodySize])⟩

/-- Witness for C10: a series whose last candle carries a bullish
engulfing, and one with a doji strictly inside the window. -/
theorem C10_witness :
    ((⟨.doji, 1⟩ : Pattern).kind ≠ .bullishEngulfing
      → (⟨.doji, 1⟩ : Pattern).kind ≠ .bearishEngulfing
      → (⟨.doji, 1⟩ : Pattern).position + 2
          ≤ ([candX, candDoji, candX] : List Candle).length)
    ∧ ((⟨.bullishEngulfing, 2⟩ : Pattern).position + 1
          = ([candX, candA, candB] : List Candle).length
        → (⟨.bullishEngulfing, 2⟩ : Pattern).kind = .bullishEngulfing
          ∨ (⟨.bullishEngulfing, 2⟩ : Pattern).kind = .bearishEngulfing) :=
  ⟨(C10_no_single_candle_pattern_at_last [candX, candDoji, candX] ⟨.doji, 1⟩
      (by norm_num [analyzeCandlestickPatterns, patternsAt, List.range', candX, candA, candB, candA2, candB2, candDoji, defaultCandle, isBearish, isBullish, bodySize, upperShadow, lowerShadow, totalRange, isLongBody])).1,
   (C10_no_single_candle_pattern_at_last [candX, candA, candB]
      ⟨.bullishEngulfing, 2⟩ (by norm_num [analyzeCandlestickPatterns, patternsAt, List.range', candX, candA, candB, candA2, candB2, candDoji, defaultCandle, isBearish, isBullish, bodySize, upperShadow, lowerShadow, totalRange, isLongBody])).2⟩

/-- Witness for C3 at `closes = [1, 3, 2]`, `period = 1`. -/
theorem C3_rsi_witness :
    ((([1, 3, 2] : List ℚ).length < 1 + 1 →
      calculate_rsi [1, 3, 2] 1
        = .error (.insufficientData (1 + 1) ([1, 3, 2] : List ℚ).length))
    ∧ (∀ out, calculate_rsi [1, 3, 2] 1 = .ok out → ∀ r ∈ out, 0 ≤ r ∧ r ≤ 100)
    ∧ (∀ g, rsiValue g 0 = 100)) :=
  C3_rsi [1, 3, 2] 1 (by norm_num)

theorem C6_clustering (pivots : List PivotPoint) (minTouches : ℕ) (tol : ℚ) :
    (∀ L ∈ supportResistanceLevels pivots minTouches tol, minTouches ≤ L.touches)
    ∧ (supportResistanceLevels pivots minTouches tol).Pairwise
        (fun a b => b.touches ≤ a.touches)
    ∧ supportResistanceLevels [⟨100, 1⟩, ⟨201 / 2, 2⟩, ⟨150, 3⟩] 2 (1 / 100)
        = [⟨401 / 4, 2, 2⟩] := by
  refine ⟨?_, ?_, ?_⟩
  · intro L hL
    rw [supportResistanceLevels, sortLevels, List.mem_mergeSort] at hL
    rw [groupLevels, List.mem_map] at hL
    obtain ⟨g, hg, rfl⟩ := hL
    exact of_decide_eq_true (List.mem_filter.mp hg).2
  · have h := @List.sorted_mergeSort Level
      (fun a b : Level => decide (b.touches ≤ a.touches))
      (fun a b c hab hbc => by
        simp only [decide_eq_true_eq] at *
        omega)
      (fun a b => by
        simp only [Bool.or_eq_true, decide_eq_true_eq]
        omega)
      (groupLevels pivots minTouches tol)
    rw [supportResistanceLevels, sortLevels]
    exact h.imp (fun hab => by simpa using hab)
  · norm_num [supportResistanceLevels, sortLevels, groupLevels, buildGroups,
      insertPivot, withinTolerance, groupMean, listMaxZ, abs, max_def,
      List.mergeSort_nil, List.mergeSort_singleton]

theorem C7_fibonacci (candles : List Candle) :
    (∀ rp ∈ (fibonacciLevels candles .UP).1,
        rp.2 = maxHigh candles - (maxHigh candles - minLow candles) * rp.1)
    ∧ (∀ rp ∈ (fibonacciLevels candles .UP).2,
        rp.2 = maxHigh candles + (maxHigh candles - minLow candles) * (rp.1 - 1))
    ∧ (∀ rp ∈ (fibonacciLevels candles .DOWN).1,
        rp.2 = minLow candles + (maxHigh candles - minLow candles) * rp.1)
    ∧ (∀ rp ∈ (fibonacciLevels candles .DOWN).2,
        rp.2 = minLow candles - (maxHigh candles - minLow candles) * (rp.1 - 1))
    ∧ (fibonacciLevels candles .UP).1.map Prod.fst = fibRetracementRatios
    ∧ (fibonacciLevels candles .UP).2.map Prod.fst = fibExtensionRatios
    ∧ maxHigh fibExampleCandles = 120 ∧ minLow fibExampleCandles = 100
    ∧ calculate_fibonacci_levels fibExampleCandles .UP
        = .ok (fibonacciLevels fibExampleCandles .UP)
    ∧ (1 / 2, (110 : ℚ)) ∈ (fibonacciLevels fibExampleCandles .UP).1 := by
  refine ⟨?_, ?_, ?_, ?_, ?_, ?_, ?_, ?_, ?_, ?_⟩
  · intro rp hrp
    simp only [fibonacciLevels, resolveDirection, List.mem_map] at hrp
    obtain ⟨r, _, rfl⟩ := hrp
    simp
  · intro rp hrp
    simp only [fibonacciLevels, resolveDirection, List.mem_map] at hrp
    obtain ⟨r, _, rfl⟩ := hrp
    simp
  · intro rp hrp
    simp only [fibonacciLevels, resolveDirection, List.mem_map] at hrp
    obtain ⟨r, _, rfl⟩ := hrp
    simp
  · intro rp hrp
    simp only [fibonacciLevels, resolveDirection, List.mem_map] at hrp
    obtain ⟨r, _, rfl⟩ := hrp
    simp
  · simp [fibonacciLevels, List.map_map, Function.comp_def]
  · simp [fibonacciLevels, List.map_map, Function.comp_def]
  · norm_num [maxHigh, fibExampleCandles, listMax, max_def]
  · norm_num [minLow, fibExampleCandles, listMin, min_def]
  · norm_num [calculate_fibonacci_levels, fibExampleCandles]
  · norm_num [fibonacciLevels, resolveDirection, fibRetracementRatios,
      fibExampleCandles, maxHigh, minLow, listMax, listMin, max_def, min_def]

theorem C4_adx_flat_counterexample :
    calculate_adx [flatCandle, flatCandle] 1
      = .ok ⟨[none], [none], [none], [none]⟩ := by
  norm_num [calculate_adx, diPairs, dxValues, adxValues, smoothedTriples,
    dmTriples, dmStep, seedSums, wilderSmooth, flatCandle, jsDiv, jsMul,
    jsDivO, jsSum, jsAdd, dxOf, adxScan, max_def]

lemma dmStep_bounds (p c : Candle) (hp : ValidCandle p) (hc : ValidCandle c) :
    0 ≤ (dmStep p c).1 ∧ 0 ≤ (dmStep p c).2.1 ∧ (dmStep p c).2.1 ≤ (dmStep p c).1
    ∧ 0 ≤ (dmStep p c).2.2 ∧ (dmStep p c).2.2 ≤ (dmStep p c).1 := by
  obtain ⟨hpa, hpb, hpc_, hpd⟩ := hp
  obtain ⟨hca, hcb, hcc, hcd⟩ := hc
  have hcl : c.low ≤ c.high := hca.trans hcc
  have habs1 : c.high - p.close ≤ |c.high - p.close| := le_abs_self _
  have habs2 : p.close - c.low ≤ |c.low - p.close| := by
    rw [abs_sub_comm]; exact le_abs_self _
  unfold dmStep
  simp only
  have htr0 : (0 : ℚ) ≤ max (c.high - c.low)
      (max |c.high - p.close| |c.low - p.close|) :=
    le_trans (by linarith) (le_max_left _ _)
  have htr1 : c.high - p.high ≤ max (c.high - c.low)
      (max |c.high - p.close| |c.low - p.close|) :=
    le_trans (by linarith)
      (le_trans (le_max_left _ _) (le_max_right _ _))
  have htr2 : p.low - c.low ≤ max (c.high - c.low)
      (max |c.high - p.close| |c.low - p.close|) :=
    le_trans (by linarith)
      (le_trans (le_max_right _ _) (le_max_right _ _))
  refine ⟨htr0, ?_, ?_, ?_, ?_⟩ <;> split_ifs
  · exact le_max_right _ _
  · exact le_refl 0
  · exact max_le htr1 htr0
  · exact htr0
  · exact le_max_right _ _
  · exact le_refl 0
  · exact max_le htr2 htr0
  · exact htr0

lemma dmTriples_bounds : ∀ (candles : List Candle),
    (∀ c ∈ candles, ValidCandle c) →
    ∀ t ∈ dmTriples candles,
      0 ≤ t.1 ∧ 0 ≤ t.2.1 ∧ t.2.1 ≤ t.1 ∧ 0 ≤ t.2.2 ∧ t.2.2 ≤ t.1
  | [] => by simp [dmTriples]
  | [a] => by simp [dmTriples]
  | a :: b :: rest => by
      intro h t ht
      rw [show dmTriples (a :: b :: rest) = dmStep a b :: dmTriples (b :: rest)
        from rfl] at ht
      rcases List.mem_cons.mp ht with rfl | ht'
      · exact dmStep_bounds a b (h a (by simp)) (h b (by simp))
      · exact dmTriples_bounds (b :: rest)
          (fun c hc => h c (List.mem_cons_of_mem _ hc)) t ht'

lemma dmTriples_length : ∀ (candles : List Candle),
    (dmTriples candles).length = candles.length - 1
  | [] => rfl
  | [_] => rfl
  | a :: b :: rest => by
      rw [show dmTriples (a :: b :: rest) = dmStep a b :: dmTriples (b :: rest)
        from rfl]
      simp [dmTriples_length (b :: rest)]

lemma wilderUpdate_inv (p : ℕ) (hp : 1 ≤ p) (s x : ℚ × ℚ × ℚ)
    (hs : TripleInv s) (hx : TripleInv x) : TripleInv (wilderUpdate p s x) := by
  obtain ⟨hs1, hs2, hs3, hs4, hs5⟩ := hs
  obtain ⟨hx1, hx2, hx3, hx4, hx5⟩ := hx
  have hp0 : (0 : ℚ) < p := by exact_mod_cast Nat.lt_of_lt_of_le Nat.zero_lt_one hp
  have hple : 1 / (p : ℚ) ≤ 1 := by
    rw [div_le_one hp0]; exact_mod_cast hp
  have hinv0 : (0 : ℚ) ≤ 1 - 1 / p := by linarith
  unfold wilderUpdate TripleInv
  simp only
  have e1 : s.1 - s.1 / p = s.1 * (1 - 1 / p) := by ring
  have e2 : s.2.1 - s.2.1 / p = s.2.1 * (1 - 1 / p) := by ring
  have e3 : s.2.2 - s.2.2 / p = s.2.2 * (1 - 1 / p) := by ring
  have m1 : 0 ≤ s.1 * (1 - 1 / p) := mul_nonneg hs1.le hinv0
  have m2 : 0 ≤ s.2.1 * (1 - 1 / p) := mul_nonneg hs2 hinv0
  have m3 : 0 ≤ s.2.2 * (1 - 1 / p) := mul_nonneg hs4 hinv0
  have d1 : s.2.1 * (1 - 1 / p) ≤ s.1 * (1 - 1 / p) :=
    mul_le_mul_of_nonneg_right hs3 hinv0
  have d2 : s.2.2 * (1 - 1 / p) ≤ s.1 * (1 - 1 / p) :=
    mul_le_mul_of_nonneg_right hs5 hinv0
  refine ⟨by rw [e1]; linarith, by rw [e2]; linarith,
    by rw [e1, e2]; linarith, by rw [e3]; linarith, by rw [e1, e3]; linarith⟩

lemma wilderSmooth_inv : ∀ (l : List (ℚ × ℚ × ℚ)) (p : ℕ), 1 ≤ p →
    ∀ s : ℚ × ℚ × ℚ, TripleInv s → (∀ x ∈ l, TripleInv x) →
    ∀ y ∈ wilderSmooth p s l, TripleInv y
  | [], p, _, s, hs, _, y, hy => by
      rw [wilderSmooth] at hy
      simp at hy
      rwa [hy]
  | x :: rest, p, hp, s, hs, hl, y, hy => by
      rw [wilderSmooth] at hy
      rcases List.mem_cons.mp hy with rfl | hy'
      · exact hs
      · exact wilderSmooth_inv rest p hp (wilderUpdate p s x)
          (wilderUpdate_inv p hp s x hs (hl x (by simp)))
          (fun z hz => hl z (List.mem_cons_of_mem _ hz)) y hy'

lemma triple_sum_bounds : ∀ (l : List (ℚ × ℚ × ℚ)),
    (∀ x ∈ l, 0 ≤ x.1 ∧ 0 ≤ x.2.1 ∧ x.2.1 ≤ x.1 ∧ 0 ≤ x.2.2 ∧ x.2.2 ≤ x.1) →
    0 ≤ (l.map (·.1)).sum ∧ 0 ≤ (l.map (·.2.1)).sum
    ∧ (l.map (·.2.1)).sum ≤ (l.map (·.1)).sum
    ∧ 0 ≤ (l.map (·.2.2)).sum ∧ (l.map (·.2.2)).sum ≤ (l.map (·.1)).sum
  | [] => by simp
  | x :: rest => by
      intro h
      obtain ⟨h1, h2, h3, h4, h5⟩ := h x (by simp)
      obtain ⟨r1, r2, r3, r4, r5⟩ := triple_sum_bounds rest
        (fun z hz => h z (List.mem_cons_of_mem _ hz))
      simp only [List.map_cons, List.sum_cons]
      refine ⟨by linarith, by linarith, by linarith, by linarith, by linarith⟩

lemma triple_sum_pos : ∀ (l : List (ℚ × ℚ × ℚ)), l ≠ [] →
    (∀ x ∈ l, 0 < x.1) → 0 < (l.map (·.1)).sum
  | [], h, _ => absurd rfl h
  | x :: rest, _, h => by
      simp only [List.map_cons, List.sum_cons]
      have hx := h x (by simp)
      have hr : 0 ≤ (rest.map (·.1)).sum :=
        List.sum_nonneg (fun q hq => by
          obtain ⟨z, hz, rfl⟩ := List.mem_map.mp hq
          exact (h z (List.mem_cons_of_mem _ hz)).le)
      linarith

lemma seedSums_inv (p : ℕ) (hp : 1 ≤ p) (triples : List (ℚ × ℚ × ℚ))
    (hb : ∀ t ∈ triples,
      0 ≤ t.1 ∧ 0 ≤ t.2.1 ∧ t.2.1 ≤ t.1 ∧ 0 ≤ t.2.2 ∧ t.2.2 ≤ t.1)
    (hpos : ∀ t ∈ triples, 0 < t.1) (hlen : p ≤ triples.length) :
    TripleInv (seedSums p triples) := by
  have hmem : ∀ t ∈ triples.take p, t ∈ triples := fun t ht => List.mem_of_mem_take ht
  obtain ⟨s1, s2, s3, s4, s5⟩ := triple_sum_bounds (triples.take p)
    (fun t ht => hb t (hmem t ht))
  have hne : triples.take p ≠ [] := by
    have : (triples.take p).length = p := by
      rw [List.length_take]; omega
    intro hcon
    rw [hcon] at this
    simp at this
    omega
  have hpos' : 0 < ((triples.take p).map (·.1)).sum :=
    triple_sum_pos _ hne (fun t ht => hpos t (hmem t ht))
  exact ⟨hpos', s2, s3, s4, s5⟩

lemma di_component_bounds (s : ℚ × ℚ × ℚ) (hs : TripleInv s) :
    (∃ q, jsMul (jsDiv s.2.1 s.1) (some 100) = some q ∧ 0 ≤ q ∧ q ≤ 100)
    ∧ (∃ q, jsMul (jsDiv s.2.2 s.1) (some 100) = some q ∧ 0 ≤ q ∧ q ≤ 100) := by
  obtain ⟨h1, h2, h3, h4, h5⟩ := hs
  have hne : s.1 ≠ 0 := ne_of_gt h1
  constructor
  · refine ⟨s.2.1 / s.1 * 100, by simp [jsDiv, jsMul, hne], ?_, ?_⟩
    · have := div_nonneg h2 h1.le
      linarith
    · have : s.2.1 / s.1 ≤ 1 := (div_le_one h1).mpr h3
      have h0 : 0 ≤ s.2.1 / s.1 := div_nonneg h2 h1.le
      linarith
  · refine ⟨s.2.2 / s.1 * 100, by simp [jsDiv, jsMul, hne], ?_, ?_⟩
    · have := div_nonneg h4 h1.le
      linarith
    · have : s.2.2 / s.1 ≤ 1 := (div_le_one h1).mpr h5
      have h0 : 0 ≤ s.2.2 / s.1 := div_nonneg h4 h1.le
      linarith

lemma dxOf_bounds (p m : ℚ) (hp : 0 ≤ p) (hm : 0 ≤ m) :
    ∃ q, dxOf (some p, some m) = some q ∧ 0 ≤ q ∧ q ≤ 100 := by
  rw [show dxOf (some p, some m)
      = if p + m = 0 then some 0 else some (|p - m| / (p + m) * 100) from rfl]
  split_ifs with h
  · exact ⟨0, rfl, le_refl 0, by norm_num⟩
  · have hsum : 0 < p + m := lt_of_le_of_ne (by linarith) (Ne.symm h)
    have habs : |p - m| ≤ p + m := abs_le.mpr ⟨by linarith, by linarith⟩
    have hd0 : 0 ≤ |p - m| / (p + m) := div_nonneg (abs_nonneg _) hsum.le
    have hd1 : |p - m| / (p + m) ≤ 1 := (div_le_one hsum).mpr habs
    exact ⟨_, rfl, by linarith, by linarith⟩

lemma foldl_jsAdd_bounded : ∀ (l : List (Option ℚ)) (a : ℚ),
    (∀ v ∈ l, ∃ q, v = some q ∧ 0 ≤ q ∧ q ≤ 100) →
    ∃ s, l.foldl jsAdd (some a) = some s ∧ a ≤ s ∧ s ≤ a + 100 * l.length
  | [], a, _ => ⟨a, rfl, le_refl a, by simp⟩
  | v :: rest, a, h => by
      obtain ⟨q, rfl, hq0, hq1⟩ := h v (by simp)
      obtain ⟨s, hs, hs0, hs1⟩ := foldl_jsAdd_bounded rest (a + q)
        (fun w hw => h w (List.mem_cons_of_mem _ hw))
      refine ⟨s, ?_, by linarith, ?_⟩
      · simpa [jsAdd] using hs
      · simp only [List.length_cons]
        push_cast
        linarith

lemma adxScan_bounds : ∀ (l : List (Option ℚ)) (p : ℕ), 1 ≤ p →
    ∀ (q : ℚ), 0 ≤ q → q ≤ 100 →
    (∀ v ∈ l, ∃ r, v = some r ∧ 0 ≤ r ∧ r ≤ 100) →
    ∀ y ∈ adxScan p (some q) l, ∃ r, y = some r ∧ 0 ≤ r ∧ r ≤ 100
  | [], _, _, _, _, _, _, y, hy => by simp [adxScan] at hy
  | x :: rest, p, hp, q, hq0, hq1, hl, y, hy => by
      obtain ⟨xv, rfl, hx0, hx1⟩ := hl x (by simp)
      have hp0 : (0 : ℚ) < p := by
        exact_mod_cast Nat.lt_of_lt_of_le Nat.zero_lt_one hp
      have hp1 : (1 : ℚ) ≤ (p : ℚ) := by exact_mod_cast hp
      have hnum0 : 0 ≤ q * ((p : ℚ) - 1) + xv :=
        add_nonneg (mul_nonneg hq0 (by linarith)) hx0
      have hnum1 : q * ((p : ℚ) - 1) + xv ≤ 100 * p := by
        have : q * ((p : ℚ) - 1) ≤ 100 * ((p : ℚ) - 1) :=
          mul_le_mul_of_nonneg_right hq1 (by linarith)
        linarith
      have hstep : jsDivO (jsAdd (jsMul (some q) (some ((p : ℚ) - 1))) (some xv))
          (p : ℚ) = some ((q * ((p : ℚ) - 1) + xv) / p) := by
        simp [jsMul, jsAdd, jsDivO, jsDiv, ne_of_gt hp0]
      have hq'0 : 0 ≤ (q * ((p : ℚ) - 1) + xv) / p := div_nonneg hnum0 hp0.le
      have hq'1 : (q * ((p : ℚ) - 1) + xv) / p ≤ 100 := by
        rw [div_le_iff₀ hp0]
        linarith
      rw [adxScan] at hy
      simp only [hstep] at hy
      rcases List.mem_cons.mp hy with rfl | hy'
      · exact ⟨_, rfl, hq'0, hq'1⟩
      · exact adxScan_bounds rest p hp _ hq'0 hq'1
          (fun w hw => hl w (List.mem_cons_of_mem _ hw)) y hy'

/-- C4 (amended): with data-model-valid candles, `period ≥ 1`, at least
`2*period` candles and every per-step true range positive (so no
smoothed true range is zero), every computed +DI, −DI, DX and ADX value
is a finite number in `[0, 100]`. The positivity proviso is necessary:
see the flat-series counterexample, where +DI is `NaN`. -/
theorem C4_adx_bounds (candles : List Candle) (period : ℕ)
    (hp : 1 ≤ period) (hlen : period * 2 ≤ candles.length)
    (hvalid : ∀ c ∈ candles, ValidCandle c)
    (hpos : ∀ t ∈ dmTriples candles, 0 < t.1) :
    ∃ r, calculate_adx candles period = .ok r
      ∧ (∀ v ∈ r.plusDI, ∃ q, v = some q ∧ 0 ≤ q ∧ q ≤ 100)
      ∧ (∀ v ∈ r.minusDI, ∃ q, v = some q ∧ 0 ≤ q ∧ q ≤ 100)
      ∧ (∀ v ∈ r.dx, ∃ q, v = some q ∧ 0 ≤ q ∧ q ≤ 100)
      ∧ (∀ v ∈ r.adx, ∃ q, v = some q ∧ 0 ≤ q ∧ q ≤ 100) := by
  have hb := dmTriples_bounds candles hvalid
  have htl : period ≤ (dmTriples candles).length := by
    rw [dmTriples_length]; omega
  have hseed : TripleInv (seedSums period (dmTriples candles)) :=
    seedSums_inv period hp _ hb hpos htl
  have hsm : ∀ s ∈ smoothedTriples candles period, TripleInv s := by
    intro s hs
    refine wilderSmooth_inv _ period hp _ hseed ?_ s hs
    intro x hx
    have hx' := List.mem_of_mem_drop hx
    obtain ⟨b1, b2, b3, b4, b5⟩ := hb x hx'
    exact ⟨hpos x hx', b2, b3, b4, b5⟩
  have hdi : ∀ pr ∈ diPairs candles period,
      (∃ q, pr.1 = some q ∧ 0 ≤ q ∧ q ≤ 100)
      ∧ (∃ q, pr.2 = some q ∧ 0 ≤ q ∧ q ≤ 100) := by
    intro pr hpr
    rw [diPairs, List.mem_map] at hpr
    obtain ⟨s, hs, rfl⟩ := hpr
    exact di_component_bounds s (hsm s hs)
  have hdx : ∀ v ∈ dxValues candles period,
      ∃ q, v = some q ∧ 0 ≤ q ∧ q ≤ 100 := by
    intro v hv
    rw [dxValues, List.mem_map] at hv
    obtain ⟨pr, hpr, rfl⟩ := hv
    obtain ⟨⟨q1, he1, hq10, hq11⟩, q2, he2, hq20, hq21⟩ := hdi pr hpr
    have hpr' : pr = (some q1, some q2) := by
      cases pr
      simp_all
    rw [hpr']
    exact dxOf_bounds q1 q2 hq10 hq20
  have hp0 : (0 : ℚ) < period := by
    exact_mod_cast Nat.lt_of_lt_of_le Nat.zero_lt_one hp
  have hadx : ∀ v ∈ adxValues candles period,
      ∃ q, v = some q ∧ 0 ≤ q ∧ q ≤ 100 := by
    intro v hv
    rw [adxValues] at hv
    by_cases hcase : period ≤ (dxValues candles period).length
    · rw [if_pos hcase] at hv
      obtain ⟨S, hS, hS0, hS1⟩ := foldl_jsAdd_bounded
        ((dxValues candles period).take period) 0
        (fun w hw => hdx w (List.mem_of_mem_take hw))
      have hlen' : ((dxValues candles period).take period).length ≤ period := by
        rw [List.length_take]; omega
      have hSle : S ≤ 100 * (period : ℚ) := by
        have : (((dxValues candles period).take period).length : ℚ)
            ≤ (period : ℚ) := by exact_mod_cast hlen'
        nlinarith
      have hseed' : jsDivO (jsSum ((dxValues candles period).take period))
          (period : ℚ) = some (S / period) := by
        unfold jsSum
        rw [hS]
        simp [jsDivO, jsDiv, ne_of_gt hp0]
      have hsd0 : 0 ≤ S / (period : ℚ) := div_nonneg (by linarith) hp0.le
      have hsd1 : S / (period : ℚ) ≤ 100 := by
        rw [div_le_iff₀ hp0]; linarith
      rw [hseed'] at hv
      rcases List.mem_cons.mp hv with rfl | hv'
      · exact ⟨_, rfl, hsd0, hsd1⟩
      · exact adxScan_bounds _ period hp _ hsd0 hsd1
          (fun w hw => hdx w (List.mem_of_mem_drop hw)) v hv'
    · rw [if_neg hcase] at hv
      simp at hv
  refine ⟨⟨(diPairs candles period).map Prod.fst,
      (diPairs candles period).map Prod.snd,
      dxValues candles period, adxValues candles period⟩,
    ?_, ?_, ?_, hdx, hadx⟩
  · rw [calculate_adx, if_neg (by omega)]
  · intro v hv
    rw [List.mem_map] at hv
    obtain ⟨pr, hpr, rfl⟩ := hv
    exact (hdi pr hpr).1
  · intro v hv
    rw [List.mem_map] at hv
    obtain ⟨pr, hpr, rfl⟩ := hv
    exact (hdi pr hpr).2

/-- Witness for C4 at `period = 1` over two non-degenerate candles. -/
theorem C4_adx_bounds_witness :
    ∃ r, calculate_adx [adxWitnessCandle, adxWitnessCandle] 1 = .ok r
      ∧ (∀ v ∈ r.plusDI, ∃ q, v = some q ∧ 0 ≤ q ∧ q ≤ 100)
      ∧ (∀ v ∈ r.minusDI, ∃ q, v = some q ∧ 0 ≤ q ∧ q ≤ 100)
      ∧ (∀ v ∈ r.dx, ∃ q, v = some q ∧ 0 ≤ q ∧ q ≤ 100)
      ∧ (∀ v ∈ r.adx, ∃ q, v = some q ∧ 0 ≤ q ∧ q ≤ 100) :=
  C4_adx_bounds [adxWitnessCandle, adxWitnessCandle] 1 (by norm_num) (by norm_num)
    (by norm_num [ValidCandle, adxWitnessCandle])
    (by norm_num [dmTriples, dmStep, adxWitnessCandle, max_def, abs])

end Groww
